import Mathlib

/-!
ColorManager (src/colormanager.cpp)

A shallow embedding of `ColorManager::handle_action`,
`ColorManager::dump_config`, `format_style` and `ColorManager::apply_colors`,
followed by the properties proved about them.

* `std::string` is `String`, `std::vector<std::string>` is `List String`.
* A member function that mutates `*this` and may throw returns the outcome
  (`Except ConfigHandlerException Unit`) paired with the object after the call.
* `utils::is_valid_color` and `utils::is_valid_attribute` live outside this
  file of the repository; they are parameters of `handle_action`.
* The callback `stfl_value_setter` is supplied by the caller; `apply_colors`
  returns the calls it makes to it, in order, as `(key, value)` pairs.
-/

namespace newsboat

/-! ## Data model -/

/-- The `TextStyle` aggregate built at line 89 as `{fgcolor, bgcolor, attribs}`
and read back field by field in `dump_config`. -/
structure TextStyle where
  fg_color : String
  bg_color : String
  attributes : List String
  deriving DecidableEq, Repr

/-- The two `ActionHandlerStatus` values thrown by `handle_action`. -/
inductive ActionHandlerStatus where
  | TOO_FEW_PARAMS
  | INVALID_COMMAND
  deriving DecidableEq, Repr

/-- The exception thrown by `handle_action`. It is constructed either from an
`ActionHandlerStatus`, or from `strprintf::fmt(_(msgid), arg)`; translation and
formatting are external, so the message is kept as its message id and its one
`%s` argument. -/
inductive ConfigHandlerException where
  | status (s : ActionHandlerStatus)
  | formatted (msgid : String) (arg : String)
  deriving DecidableEq, Repr

deriving instance DecidableEq for Except

/-- Insert-or-overwrite on a list of entries: the first entry with key `k` gets
the new value in place; when there is none, the new entry goes to the end. -/
def assign_entries (k : String) (v : TextStyle) :
    List (String × TextStyle) → List (String × TextStyle)
  | [] => [(k, v)]
  | e :: rest => if e.1 = k then (k, v) :: rest else e :: assign_entries k v rest

/-- Modelled from the spec: the declaration of the member `element_styles`
(colormanager.h) is not part of the source at hand. The spec (section 3) calls
it a mapping from element name to `TextStyle` with unique keys and a stable,
otherwise unspecified iteration order; the entries are kept here in the order
in which their keys were first inserted. -/
structure StyleMap where
  entries : List (String × TextStyle)
  nodup : (entries.map Prod.fst).Nodup

namespace StyleMap

/-- The map of a freshly constructed `ColorManager`. -/
def empty : StyleMap := ⟨[], List.nodup_nil⟩

/-- Lookup on the entries: `find(key)`, `none` standing for `cend()`. -/
def find_entries (k : String) : List (String × TextStyle) → Option TextStyle
  | [] => none
  | e :: rest => if e.1 = k then some e.2 else find_entries k rest

/-- The call `element_styles.find(key)`. -/
def find (m : StyleMap) (k : String) : Option TextStyle := find_entries k m.entries

/-- The statement `element_styles[k] = v`. -/
def assign (m : StyleMap) (k : String) (v : TextStyle) : StyleMap :=
  ⟨assign_entries k v m.entries, by
    have keys : ∀ l : List (String × TextStyle), (assign_entries k v l).map Prod.fst
        = if k ∈ l.map Prod.fst then l.map Prod.fst else l.map Prod.fst ++ [k] := by
      intro l
      induction l with
      | nil => simp [assign_entries]
      | cons e rest ih =>
        by_cases h : e.1 = k
        · simp [assign_entries, h]
        · have h2 : ¬ k = e.1 := fun h3 => h h3.symm
          simp only [assign_entries, h, if_false, List.map_cons, ih, List.mem_cons, h2, false_or]
          split <;> simp
    rw [keys]
    split
    · exact m.nodup
    · rename_i hk
      exact List.Nodup.append m.nodup (List.nodup_singleton k) (by simpa using hk)⟩

end StyleMap

/-- The state of a `ColorManager` object: its one data member. -/
structure ColorManager where
  element_styles : StyleMap

/-- The constructor `ColorManager::ColorManager()`. -/
def ColorManager.new : ColorManager := ⟨StyleMap.empty⟩

/-! ## handle_action -/

/-- The vector `supported_elements` of lines 74-84. -/
def supported_elements : List String :=
  ["listnormal", "listfocus", "listnormal_unread", "listfocus_unread", "info",
   "background", "article", "end-of-text-marker", "title"]

/-- The function `ColorManager::handle_action` (lines 33-98). -/
def handle_action (is_valid_color is_valid_attribute : String → Bool)
    (self : ColorManager) (action : String) (params : List String) :
    Except ConfigHandlerException Unit × ColorManager :=
  if action = "color" then
    if params.length < 3 then
      (.error (.status .TOO_FEW_PARAMS), self)
    else
      let element := params.getD 0 ""
      let fgcolor := params.getD 1 ""
      let bgcolor := params.getD 2 ""
      if !is_valid_color fgcolor then
        (.error (.formatted "`%s' is not a valid color" fgcolor), self)
      else if !is_valid_color bgcolor then
        (.error (.formatted "`%s' is not a valid color" bgcolor), self)
      else
        let attribs := params.drop 3
        match attribs.find? (fun attr => !is_valid_attribute attr) with
        | some attr => (.error (.formatted "`%s' is not a valid attribute" attr), self)
        | none =>
          let element_is_supported := supported_elements.contains element
          if element_is_supported then
            (.ok (), { self with
              element_styles := self.element_styles.assign element ⟨fgcolor, bgcolor, attribs⟩ })
          else
            (.error (.formatted "`%s' is not a valid configuration element" element), self)
  else
    (.error (.status .INVALID_COMMAND), self)

/-! ## dump_config -/

/-- The line built for one entry in the body of the loop of `dump_config`
(lines 105-112): the formatted head, then `" "` and the attribute appended for
each attribute in turn. -/
def configline (element : String) (style : TextStyle) : String :=
  style.attributes.foldl (fun line attrib => (line ++ " ") ++ attrib)
    ("color " ++ element ++ " " ++ style.fg_color ++ " " ++ style.bg_color)

/-- The function `ColorManager::dump_config` (lines 100-115): the loop over the
entries pushes one line per iteration onto `config_output`, whose final content
is returned. -/
def dump_config (self : ColorManager) (config_output : List String) : List String :=
  self.element_styles.entries.foldl
    (fun out element_style => out ++ [configline element_style.1 element_style.2])
    config_output

/-! ## format_style and apply_colors -/

/-- The function `format_style` (lines 117-141). -/
def format_style (style : TextStyle) : String :=
  let result := ""
  let result :=
    if style.fg_color ≠ "default" then (result ++ "fg=") ++ style.fg_color else result
  let result :=
    if style.bg_color ≠ "default" then
      let result := if result ≠ "" then result ++ "," else result
      (result ++ "bg=") ++ style.bg_color
    else result
  style.attributes.foldl
    (fun result attr =>
      let result := if result ≠ "" then result ++ "," else result
      (result ++ "attr=") ++ attr)
    result

/-- The function `ColorManager::apply_colors` (lines 143-187): the calls made to
`stfl_value_setter`, in order. The loop over the entries makes one call per
entry and two more after an `article` entry; after the loop, `title` falls back
to `info` when `title` has no entry and `info` has one. -/
def apply_colors (self : ColorManager) : List (String × String) :=
  let calls := self.element_styles.entries.foldl
    (fun calls element_style =>
      let element := element_style.1
      let style := element_style.2
      let colorattr := format_style style
      let calls := calls ++ [(element, colorattr)]
      if element = "article" then
        let bold := colorattr
        let underline := colorattr
        let bold := if bold ≠ "" then bold ++ "," else bold
        let underline := if underline ≠ "" then underline ++ "," else underline
        let bold := bold ++ "attr=bold"
        let underline := underline ++ "attr=underline"
        let calls := calls ++ [("color_bold", bold)]
        calls ++ [("color_underline", underline)]
      else calls)
    []
  let title_style := self.element_styles.find "title"
  let info_style := self.element_styles.find "info"
  match title_style, info_style with
  | none, some style => calls ++ [("title", format_style style)]
  | _, _ => calls

/-- The calls made by one iteration of the loop of `apply_colors` (lines
148-176), written out for an entry: the call for the entry, and for `article`
the calls for `color_bold` and `color_underline`. -/
def loop_calls (element_style : String × TextStyle) : List (String × String) :=
  (element_style.1, format_style element_style.2) ::
    (if element_style.1 = "article" then
      [("color_bold",
          (if format_style element_style.2 ≠ "" then format_style element_style.2 ++ ","
            else format_style element_style.2) ++ "attr=bold"),
       ("color_underline",
          (if format_style element_style.2 ≠ "" then format_style element_style.2 ++ ","
            else format_style element_style.2) ++ "attr=underline")]
    else [])

/-! ## Replaying a dump -/

/-- Splitting a character sequence at every single space; empty pieces are kept. -/
def split_chars : List Char → List (List Char)
  | [] => [[]]
  | c :: cs =>
    if c = ' ' then [] :: split_chars cs
    else
      match split_chars cs with
      | [] => [[c]]
      | w :: ws => (c :: w) :: ws

/-- Splitting a line at single spaces into the action (first piece) and the
parameters (remaining pieces). -/
def split_line (line : String) : String × List String :=
  match (split_chars line.data).map String.mk with
  | [] => ("", [])
  | action :: params => (action, params)

/-- Feeding lines in order to `handle_action`: the outcomes of the calls, in
order, and the object after the last call. -/
def replay (is_valid_color is_valid_attribute : String → Bool) :
    ColorManager → List String → List (Except ConfigHandlerException Unit) × ColorManager
  | self, [] => ([], self)
  | self, line :: rest =>
    let r := handle_action is_valid_color is_valid_attribute self
      (split_line line).1 (split_line line).2
    let rs := replay is_valid_color is_valid_attribute r.2 rest
    (r.1 :: rs.1, rs.2)

/-- The objects a program can hold: a fresh `ColorManager`, and whatever a call
of `handle_action` (any action, any parameters, succeeding or not) leaves. -/
inductive Reachable (is_valid_color is_valid_attribute : String → Bool) :
    ColorManager → Prop where
  | new : Reachable is_valid_color is_valid_attribute ColorManager.new
  | step (self : ColorManager) (action : String) (params : List String) :
      Reachable is_valid_color is_valid_attribute self →
      Reachable is_valid_color is_valid_attribute
        (handle_action is_valid_color is_valid_attribute self action params).2

/-- An entry that passed every check of `handle_action`. -/
def entry_valid (is_valid_color is_valid_attribute : String → Bool) (e : String × TextStyle) : Prop :=
  e.1 ∈ supported_elements ∧ is_valid_color e.2.fg_color = true ∧ is_valid_color e.2.bg_color = true ∧
    ∀ a ∈ e.2.attributes, is_valid_attribute a = true

/-- A sample colour validator: the nine basic colour names. -/
def sample_is_valid_color (s : String) : Bool :=
  ["default", "black", "red", "green", "yellow", "blue", "magenta", "cyan", "white"].contains s

/-- A sample attribute validator. -/
def sample_is_valid_attribute (s : String) : Bool :=
  ["bold", "underline", "standout", "dim", "blink", "protect", "reverse", "default"].contains s

/-- A sample object holding only `info = {green, default, []}`. -/
def sample_info : ColorManager :=
  (handle_action sample_is_valid_color sample_is_valid_attribute ColorManager.new
    "color" ["info", "green", "default"]).2

/-- A sample object holding only `article = {white, black, [bold]}`. -/
def sample_article : ColorManager :=
  (handle_action sample_is_valid_color sample_is_valid_attribute ColorManager.new
    "color" ["article", "white", "black", "bold"]).2

/-- A sample object holding `article = {white, black, [bold]}` and
`info = {green, default, []}`. -/
def sample_article_info : ColorManager :=
  (handle_action sample_is_valid_color sample_is_valid_attribute sample_article
    "color" ["info", "green", "default"]).2

/-- A sample object holding `title = {red, default, []}` and
`info = {green, default, []}`. -/
def sample_title_info : ColorManager :=
  (handle_action sample_is_valid_color sample_is_valid_attribute
    (handle_action sample_is_valid_color sample_is_valid_attribute ColorManager.new
      "color" ["title", "red", "default"]).2
    "color" ["info", "green", "default"]).2

/-! ## Auxiliary facts -/

/-- A list of at least three parameters has a first, a second and a third one. -/
theorem exists_cons3 (params : List String) (h : 3 ≤ params.length) :
    ∃ e f b rest, params = e :: f :: b :: rest := by
  match params, h with
  | e :: f :: b :: rest, _ => exact ⟨e, f, b, rest, rfl⟩

/-- After an assignment the key is found with the assigned value. -/
theorem find_entries_assign_same (k : String) (v : TextStyle) (l : List (String × TextStyle)) :
    StyleMap.find_entries k (assign_entries k v l) = some v := by
  induction l with
  | nil => simp [assign_entries, StyleMap.find_entries]
  | cons e rest ih =>
    by_cases h : e.1 = k
    · simp [assign_entries, StyleMap.find_entries, h]
    · simp [assign_entries, StyleMap.find_entries, h, ih]

/-- An assignment does not change what is found under another key. -/
theorem find_entries_assign_other (k k2 : String) (v : TextStyle) (l : List (String × TextStyle))
    (hne : k2 ≠ k) :
    StyleMap.find_entries k2 (assign_entries k v l) = StyleMap.find_entries k2 l := by
  induction l with
  | nil => simp [assign_entries, StyleMap.find_entries, hne.symm]
  | cons e rest ih =>
    by_cases h : e.1 = k
    · have h2 : ¬ e.1 = k2 := fun h3 => hne (h3.symm.trans h)
      simp [assign_entries, StyleMap.find_entries, h, h2, hne.symm]
    · simp [assign_entries, StyleMap.find_entries, h, ih]

/-- The search for the first rejected item finds none when all are accepted. -/
theorem find_none_of_all_valid (p : String → Bool) (l : List String) (h : ∀ a ∈ l, p a = true) :
    l.find? (fun a => !p a) = none := by
  simp only [List.find?_eq_none]
  intro a ha
  simp [h a ha]

/-- The body of `handle_action` for the action `color` and at least three
parameters. -/
theorem handle_action_color_cons (vc va : String → Bool) (self : ColorManager)
    (element fg bg : String) (attrs : List String) :
    handle_action vc va self "color" (element :: fg :: bg :: attrs) =
      if !vc fg then (.error (.formatted "`%s' is not a valid color" fg), self)
      else if !vc bg then (.error (.formatted "`%s' is not a valid color" bg), self)
      else match attrs.find? (fun attr => !va attr) with
        | some attr => (.error (.formatted "`%s' is not a valid attribute" attr), self)
        | none =>
          if supported_elements.contains element then
            (.ok (), ⟨self.element_styles.assign element ⟨fg, bg, attrs⟩⟩)
          else (.error (.formatted "`%s' is not a valid configuration element" element), self) := by
  simp [handle_action]

/-- Fewer than three parameters. -/
theorem handle_action_color_short (vc va : String → Bool) (self : ColorManager)
    (params : List String) (h : params.length < 3) :
    handle_action vc va self "color" params
      = (.error (.status .TOO_FEW_PARAMS), self) := by
  simp [handle_action, h]

/-- Any other action. -/
theorem handle_action_other (vc va : String → Bool) (self : ColorManager)
    (action : String) (params : List String) (h : action ≠ "color") :
    handle_action vc va self action params
      = (.error (.status .INVALID_COMMAND), self) := by
  simp [handle_action, h]

/-- The successful path of `handle_action`, unfolded. -/
theorem handle_action_ok (vc va : String → Bool) (self : ColorManager)
    (element fg bg : String) (attrs : List String)
    (hel : element ∈ supported_elements) (hfg : vc fg = true) (hbg : vc bg = true)
    (hat : ∀ a ∈ attrs, va a = true) :
    handle_action vc va self "color" (element :: fg :: bg :: attrs)
      = (.ok (), ⟨self.element_styles.assign element ⟨fg, bg, attrs⟩⟩) := by
  have hfind := find_none_of_all_valid va attrs hat
  simp [handle_action, hfg, hbg, hfind, hel]

/-- The characters of a dumped line: the head, then a space and the
attribute for each attribute. -/
theorem configline_data (element : String) (style : TextStyle) :
    (configline element style).data
      = "color ".data ++ (element.data ++ ' ' :: (style.fg_color.data ++ ' ' ::
          (style.bg_color.data ++ (style.attributes.map (fun a => ' ' :: a.data)).flatten))) := by
  have hfold : ∀ (attrs : List String) (init : String),
      (attrs.foldl (fun line attrib => (line ++ " ") ++ attrib) init).data
        = init.data ++ (attrs.map (fun a => ' ' :: a.data)).flatten := by
    intro attrs
    induction attrs with
    | nil => intro init; simp
    | cons a rest ih =>
      intro init
      simp only [List.foldl_cons, ih, String.data_append, List.map_cons, List.flatten_cons]
      have hsp : " ".data = [' '] := rfl
      simp [hsp]
  unfold configline
  rw [hfold]
  have hsp : " ".data = [' '] := rfl
  simp [String.data_append, hsp]

/-- The loop of `dump_config` as a map over the entries. -/
theorem dump_config_eq_map (self : ColorManager) (out : List String) :
    dump_config self out
      = out ++ self.element_styles.entries.map (fun e => configline e.1 e.2) := by
  unfold dump_config
  generalize self.element_styles.entries = es
  induction es generalizing out with
  | nil => simp
  | cons e rest ih => simp [List.foldl_cons, ih]

/-- A piece without a space is not split. -/
theorem split_chars_of_no_space (w : List Char) (hw : ' ' ∉ w) : split_chars w = [w] := by
  induction w with
  | nil => rfl
  | cons c cs ih =>
    have hc : ¬ c = ' ' := fun h => hw (by simp [h])
    have hcs : ' ' ∉ cs := fun h => hw (List.mem_cons_of_mem c h)
    simp [split_chars, hc, ih hcs]

/-- A piece without a space followed by a space is split off. -/
theorem split_chars_append (w rest : List Char) (hw : ' ' ∉ w) :
    split_chars (w ++ ' ' :: rest) = w :: split_chars rest := by
  induction w with
  | nil => simp [split_chars]
  | cons c cs ih =>
    have hc : ¬ c = ' ' := fun h => hw (by simp [h])
    have hcs : ' ' ∉ cs := fun h => hw (List.mem_cons_of_mem c h)
    simp [split_chars, hc, ih hcs]

/-- The pieces of the tail of a dumped line. -/
theorem split_chars_attributes (attrs : List String) (first : String)
    (hfirst : ' ' ∉ first.data) (hattrs : ∀ a ∈ attrs, ' ' ∉ a.data) :
    split_chars (first.data ++ (attrs.map (fun a => ' ' :: a.data)).flatten)
      = first.data :: attrs.map String.data := by
  induction attrs generalizing first with
  | nil => simpa using split_chars_of_no_space first.data hfirst
  | cons a rest ih =>
    have ha : ' ' ∉ a.data := hattrs a (List.mem_cons_self a rest)
    have hrest : ∀ b ∈ rest, ' ' ∉ b.data := fun b hb => hattrs b (List.mem_cons_of_mem a hb)
    simp only [List.map_cons, List.flatten_cons, List.cons_append]
    rw [split_chars_append first.data _ hfirst, ih a ha hrest]

/-- A dumped line splits into the action `color` and the parameters of the
directive, provided no token holds a space. -/
theorem split_line_configline (element : String) (style : TextStyle)
    (hel : ' ' ∉ element.data) (hfg : ' ' ∉ style.fg_color.data)
    (hbg : ' ' ∉ style.bg_color.data) (hattrs : ∀ a ∈ style.attributes, ' ' ∉ a.data) :
    split_line (configline element style)
      = ("color", element :: style.fg_color :: style.bg_color :: style.attributes) := by
  have hcolor : ∀ rest : List Char,
      split_chars ("color ".data ++ rest) = "color".data :: split_chars rest :=
    fun rest => split_chars_append "color".data rest (by decide)
  have hsplit : split_chars (configline element style).data
      = "color".data :: element.data :: style.fg_color.data :: style.bg_color.data
          :: style.attributes.map String.data := by
    rw [configline_data, hcolor, split_chars_append _ _ hel,
      split_chars_append _ _ hfg, split_chars_attributes _ _ hbg hattrs]
  unfold split_line
  rw [hsplit]
  simp [List.map_map, Function.comp_def]

/-- No supported element name holds a space. -/
theorem supported_elements_no_space (element : String) (h : element ∈ supported_elements) :
    ' ' ∉ element.data := by
  simp only [supported_elements, List.mem_cons, List.mem_singleton, List.not_mem_nil,
    or_false] at h
  rcases h with rfl | rfl | rfl | rfl | rfl | rfl | rfl | rfl | rfl <;> decide

/-- Assigning to a key that is absent appends the entry. -/
theorem assign_entries_of_not_mem (k : String) (v : TextStyle) (l : List (String × TextStyle))
    (h : k ∉ l.map Prod.fst) : assign_entries k v l = l ++ [(k, v)] := by
  induction l with
  | nil => rfl
  | cons e rest ih =>
    have h1 : ¬ e.1 = k := fun h2 => h (by simp [h2])
    have h3 : k ∉ rest.map Prod.fst := fun h2 => h (by simp [List.map_cons, h2])
    simp [assign_entries, h1, ih h3]

/-- Every entry after an assignment is the new one or an old one. -/
theorem mem_assign_entries (k : String) (v : TextStyle) (l : List (String × TextStyle))
    (e : String × TextStyle) (h : e ∈ assign_entries k v l) : e = (k, v) ∨ e ∈ l := by
  induction l with
  | nil => simpa [assign_entries] using h
  | cons e2 rest ih =>
    by_cases h1 : e2.1 = k
    · simp only [assign_entries, h1, if_true, List.mem_cons] at h
      rcases h with h | h
      · exact Or.inl h
      · exact Or.inr (List.mem_cons_of_mem e2 h)
    · simp only [assign_entries, h1, if_false, List.mem_cons] at h
      rcases h with h | h
      · exact Or.inr (by simp [h])
      · rcases ih h with h2 | h2
        · exact Or.inl h2
        · exact Or.inr (List.mem_cons_of_mem e2 h2)

/-- What a call of `handle_action` leaves: the object as it was, or the object
with a validated style assigned to a supported element. -/
theorem handle_action_state (vc va : String → Bool) (self : ColorManager)
    (action : String) (params : List String) :
    (handle_action vc va self action params).2 = self ∨
    ∃ element fg bg attrs, element ∈ supported_elements ∧ vc fg = true ∧ vc bg = true ∧
      (∀ a ∈ attrs, va a = true) ∧
      (handle_action vc va self action params).2
        = ⟨self.element_styles.assign element ⟨fg, bg, attrs⟩⟩ := by
  by_cases h1 : action = "color"
  · subst h1
    by_cases h2 : params.length < 3
    · left
      rw [handle_action_color_short vc va self params h2]
    · obtain ⟨el, fg, bg, attrs, rfl⟩ := exists_cons3 params (by omega)
      by_cases hfg : vc fg = true
      · by_cases hbg : vc bg = true
        · by_cases hat : ∀ a ∈ attrs, va a = true
          · by_cases hel : el ∈ supported_elements
            · right
              exact ⟨el, fg, bg, attrs, hel, hfg, hbg, hat,
                by rw [handle_action_ok vc va self el fg bg attrs hel hfg hbg hat]⟩
            · left
              rw [handle_action_color_cons]
              simp [hfg, hbg, find_none_of_all_valid va attrs hat, hel]
          · left
            rw [handle_action_color_cons]
            cases hfind : attrs.find? (fun attr => !va attr) with
            | none =>
              exfalso
              apply hat
              intro a ha
              simpa using List.find?_eq_none.mp hfind a ha
            | some attr => simp [hfg, hbg]
        · left
          rw [handle_action_color_cons]
          simp [hfg, hbg]
      · left
        rw [handle_action_color_cons]
        simp [hfg]
  · left
    rw [handle_action_other vc va self action params h1]

/-- Every entry of a reachable object passed every check of `handle_action`. -/
theorem reachable_entries_valid (vc va : String → Bool) (self : ColorManager)
    (h : Reachable vc va self) : ∀ e ∈ self.element_styles.entries, entry_valid vc va e := by
  induction h with
  | new => intro e he; simp [ColorManager.new, StyleMap.empty] at he
  | step cm action params _ ih =>
    rcases handle_action_state vc va cm action params with hs | ⟨el, fg, bg, attrs, hel, hfg, hbg, hat, hs⟩
    · rw [hs]; exact ih
    · rw [hs]
      intro e he
      rcases mem_assign_entries el _ _ e he with h1 | h1
      · subst h1
        exact ⟨hel, hfg, hbg, hat⟩
      · exact ih e h1

/-- Two objects with the same entries are the same object. -/
theorem ColorManager.ext_entries (a b : ColorManager)
    (h : a.element_styles.entries = b.element_styles.entries) : a = b := by
  cases a with
  | mk ma =>
    cases b with
    | mk mb =>
      cases ma
      cases mb
      simp only at h
      subst h
      rfl

/-- Replaying the dumped lines of valid entries with fresh, distinct keys
succeeds at every line and appends the entries in order. -/
theorem replay_dumped_entries (vc va : String → Bool)
    (hvc : ∀ s, vc s = true → ' ' ∉ s.data) (hva : ∀ s, va s = true → ' ' ∉ s.data)
    (es : List (String × TextStyle)) :
    ∀ cm : ColorManager, (∀ e ∈ es, entry_valid vc va e) →
      (cm.element_styles.entries.map Prod.fst ++ es.map Prod.fst).Nodup →
      (replay vc va cm (es.map (fun e => configline e.1 e.2))).1
          = List.replicate es.length (.ok ()) ∧
      (replay vc va cm (es.map (fun e => configline e.1 e.2))).2.element_styles.entries
          = cm.element_styles.entries ++ es := by
  induction es with
  | nil => intro cm _ _; simp [replay]
  | cons e rest ih =>
    intro cm hval hnd
    obtain ⟨hel, hfg, hbg, hat⟩ := hval e (List.mem_cons_self e rest)
    have hsplit := split_line_configline e.1 e.2 (supported_elements_no_space _ hel)
      (hvc _ hfg) (hvc _ hbg) (fun a ha => hva a (hat a ha))
    have hok := handle_action_ok vc va cm e.1 e.2.fg_color e.2.bg_color e.2.attributes
      hel hfg hbg hat
    have hfresh : e.1 ∉ cm.element_styles.entries.map Prod.fst := by
      intro hmem
      have hdis := (List.nodup_append.mp hnd).2.2
      exact hdis hmem (by simp)
    have hentries : (⟨cm.element_styles.assign e.1 e.2⟩ : ColorManager).element_styles.entries
        = cm.element_styles.entries ++ [e] :=
      assign_entries_of_not_mem e.1 e.2 _ hfresh
    have hnd2 : ((⟨cm.element_styles.assign e.1 e.2⟩ : ColorManager).element_styles.entries.map
        Prod.fst ++ rest.map Prod.fst).Nodup := by
      rw [hentries]
      simpa [List.append_assoc] using hnd
    have hrec := ih ⟨cm.element_styles.assign e.1 e.2⟩
      (fun e2 he2 => hval e2 (List.mem_cons_of_mem e he2)) hnd2
    simp only [List.map_cons, replay, hsplit, hok, List.length_cons, List.replicate_succ]
    refine ⟨by rw [hrec.1], ?_⟩
    rw [hrec.2, hentries]
    simp

/-- The new entry is among the entries after an assignment. -/
theorem self_mem_assign_entries (k : String) (v : TextStyle) (l : List (String × TextStyle)) :
    (k, v) ∈ assign_entries k v l := by
  induction l with
  | nil => simp [assign_entries]
  | cons e rest ih =>
    by_cases h : e.1 = k
    · simp [assign_entries, h]
    · simp [assign_entries, h, ih]

/-- After an assignment the entries are: entries of other keys that were there
before, the new entry, entries of other keys that were there before. -/
theorem assign_decompose (m : StyleMap) (k : String) (v : TextStyle) :
    ∃ before after : List (String × TextStyle),
      (m.assign k v).entries = before ++ (k, v) :: after ∧
      k ∉ before.map Prod.fst ∧ k ∉ after.map Prod.fst ∧
      ∀ e ∈ before ++ after, e ∈ m.entries := by
  obtain ⟨before, after, hsplit⟩ := List.append_of_mem (self_mem_assign_entries k v m.entries)
  have hnd := (m.assign k v).nodup
  have hent : (m.assign k v).entries = before ++ (k, v) :: after := hsplit
  rw [hent, List.map_append, List.map_cons] at hnd
  have hb : k ∉ before.map Prod.fst := by
    intro hmem
    exact (List.nodup_append.mp hnd).2.2 hmem (by simp)
  have ha : k ∉ after.map Prod.fst :=
    (List.nodup_cons.mp (List.nodup_append.mp hnd).2.1).1
  refine ⟨before, after, hent, hb, ha, ?_⟩
  intro e he
  have hmem : e ∈ assign_entries k v m.entries := by
    rw [hsplit]
    rcases List.mem_append.mp he with h | h
    · exact List.mem_append_left _ h
    · exact List.mem_append_right _ (List.mem_cons_of_mem _ h)
  rcases mem_assign_entries k v m.entries e hmem with h | h
  · exfalso
    rcases List.mem_append.mp he with h2 | h2
    · exact hb (List.mem_map.mpr ⟨e, h2, by rw [h]⟩)
    · exact ha (List.mem_map.mpr ⟨e, h2, by rw [h]⟩)
  · exact h

/-- The first parameter read back from a dumped line is the element of the
entry, provided the element holds no space. -/
theorem split_line_configline_element (element : String) (style : TextStyle)
    (hel : ' ' ∉ element.data) :
    (split_line (configline element style)).2.head? = some element := by
  have hcolor : ∀ rest : List Char,
      split_chars ("color ".data ++ rest) = "color".data :: split_chars rest :=
    fun rest => split_chars_append "color".data rest (by decide)
  unfold split_line
  rw [configline_data, hcolor, split_chars_append _ _ hel]
  simp

/-- The text of a dumped line. -/
theorem configline_eq (element : String) (style : TextStyle) :
    configline element style
      = "color " ++ element ++ " " ++ style.fg_color ++ " " ++ style.bg_color
          ++ String.join (style.attributes.map (fun a => " " ++ a)) := by
  apply String.ext
  rw [configline_data]
  have hsp : " ".data = [' '] := rfl
  simp [String.data_append, String.data_join, List.map_map, Function.comp_def, hsp]

/-! ## Properties of handle_action -/

/-- C1: a valid directive (element among the nine names, valid colours, valid
attributes) is accepted; afterwards the element maps to the style built from the
directive, and the lookup of every other key is what it was before. -/
theorem handle_action_stores_style (vc va : String → Bool) (self : ColorManager)
    (element fg bg : String) (attrs : List String)
    (hel : element ∈ ["listnormal", "listfocus", "listnormal_unread", "listfocus_unread",
      "info", "background", "article", "end-of-text-marker", "title"])
    (hfg : vc fg = true) (hbg : vc bg = true) (hat : ∀ a ∈ attrs, va a = true) :
    (handle_action vc va self "color" (element :: fg :: bg :: attrs)).1 = .ok () ∧
    (handle_action vc va self "color" (element :: fg :: bg :: attrs)).2.element_styles.find element
      = some ⟨fg, bg, attrs⟩ ∧
    ∀ other : String, other ≠ element →
      (handle_action vc va self "color" (element :: fg :: bg :: attrs)).2.element_styles.find other
        = self.element_styles.find other := by
  rw [handle_action_ok vc va self element fg bg attrs hel hfg hbg hat]
  refine ⟨rfl, ?_, ?_⟩
  · exact find_entries_assign_same element _ _
  · intro other hne
    exact find_entries_assign_other element other _ _ hne

/-- An instance of C1: `title` is overwritten while another entry is present. -/
theorem handle_action_stores_style_witness :
    (handle_action sample_is_valid_color sample_is_valid_attribute
        (handle_action sample_is_valid_color sample_is_valid_attribute ColorManager.new
          "color" ["title", "red", "default"]).2
        "color" ["title", "blue", "black", "bold", "underline"]).1 = .ok () ∧
    (handle_action sample_is_valid_color sample_is_valid_attribute
        (handle_action sample_is_valid_color sample_is_valid_attribute ColorManager.new
          "color" ["title", "red", "default"]).2
        "color" ["title", "blue", "black", "bold", "underline"]).2.element_styles.find "title"
      = some ⟨"blue", "black", ["bold", "underline"]⟩ ∧
    ∀ other : String, other ≠ "title" →
      (handle_action sample_is_valid_color sample_is_valid_attribute
        (handle_action sample_is_valid_color sample_is_valid_attribute ColorManager.new
          "color" ["title", "red", "default"]).2
        "color" ["title", "blue", "black", "bold", "underline"]).2.element_styles.find other
        = (handle_action sample_is_valid_color sample_is_valid_attribute ColorManager.new
          "color" ["title", "red", "default"]).2.element_styles.find other :=
  handle_action_stores_style sample_is_valid_color sample_is_valid_attribute _
    "title" "blue" "black" ["bold", "underline"] (by decide) (by decide) (by decide) (by decide)

/-- C2: whenever `handle_action` throws, whatever the action and the
parameters, the object after the call is the object before the call. -/
theorem handle_action_error_unchanged (vc va : String → Bool) (self : ColorManager)
    (action : String) (params : List String) (e : ConfigHandlerException)
    (herr : (handle_action vc va self action params).1 = .error e) :
    (handle_action vc va self action params).2 = self := by
  by_cases h1 : action = "color"
  · subst h1
    by_cases h2 : params.length < 3
    · rw [handle_action_color_short vc va self params h2]
    · obtain ⟨el, fg, bg, attrs, rfl⟩ := exists_cons3 params (by omega)
      rw [handle_action_color_cons] at herr ⊢
      split at herr
      · rw [if_pos (by assumption)]
      · rw [if_neg (by assumption)]
        split at herr
        · rw [if_pos (by assumption)]
        · rw [if_neg (by assumption)]
          split at herr
          · rfl
          · split at herr
            · simp at herr
            · rw [if_neg (by assumption)]
  · rw [handle_action_other vc va self action params h1]

/-- An instance of C2: an invalid background colour on a non-empty object. -/
theorem handle_action_error_unchanged_witness :
    (handle_action sample_is_valid_color sample_is_valid_attribute
      (handle_action sample_is_valid_color sample_is_valid_attribute ColorManager.new
        "color" ["title", "red", "default"]).2
      "color" ["title", "blue", "pink", "bold"]).2
    = (handle_action sample_is_valid_color sample_is_valid_attribute ColorManager.new
        "color" ["title", "red", "default"]).2 :=
  handle_action_error_unchanged sample_is_valid_color sample_is_valid_attribute _
    "color" ["title", "blue", "pink", "bold"]
    (.formatted "`%s' is not a valid color" "pink") (by decide)

/-- C3: with action `color` and at least three parameters, an invalid
foreground `params[1]` makes the call throw the invalid-colour message carrying
`params[1]`; a valid foreground with an invalid background `params[2]` makes it
throw the invalid-colour message carrying `params[2]`. Nothing is assumed about
`params[0]` or about the attributes. -/
theorem handle_action_invalid_color (vc va : String → Bool) (self : ColorManager)
    (params : List String) (h : 3 ≤ params.length) :
    (vc params[1] = false →
      (handle_action vc va self "color" params).1
        = .error (.formatted "`%s' is not a valid color" params[1])) ∧
    (vc params[1] = true → vc params[2] = false →
      (handle_action vc va self "color" params).1
        = .error (.formatted "`%s' is not a valid color" params[2])) := by
  obtain ⟨el, fg, bg, attrs, rfl⟩ := exists_cons3 params h
  simp only [List.getElem_cons_succ, List.getElem_cons_zero]
  constructor
  · intro hfg
    rw [handle_action_color_cons]
    simp [hfg]
  · intro hfg hbg
    rw [handle_action_color_cons]
    simp [hfg, hbg]

/-- Instances of C3: an invalid foreground with everything else invalid too, and
an invalid background after a valid foreground. -/
theorem handle_action_invalid_color_witness :
    (handle_action sample_is_valid_color sample_is_valid_attribute ColorManager.new
        "color" ["nosuchelement", "pink", "purple", "nosuchattribute"]).1
      = .error (.formatted "`%s' is not a valid color" "pink") ∧
    (handle_action sample_is_valid_color sample_is_valid_attribute ColorManager.new
        "color" ["title", "red", "purple", "bold"]).1
      = .error (.formatted "`%s' is not a valid color" "purple") :=
  ⟨(handle_action_invalid_color sample_is_valid_color sample_is_valid_attribute ColorManager.new
      ["nosuchelement", "pink", "purple", "nosuchattribute"] (by decide)).1 (by decide),
   (handle_action_invalid_color sample_is_valid_color sample_is_valid_attribute ColorManager.new
      ["title", "red", "purple", "bold"] (by decide)).2 (by decide) (by decide)⟩

/-- C4: with action `color`, at least three parameters and two valid colours,
if the attribute list `params[3..]` is `pre ++ a :: post` with every attribute
of `pre` valid and `a` invalid (so `a` is the leftmost invalid attribute), the
call throws the invalid-attribute message carrying `a`, whatever `params[0]`
is. -/
theorem handle_action_invalid_attribute (vc va : String → Bool) (self : ColorManager)
    (params : List String) (h : 3 ≤ params.length)
    (hfg : vc params[1] = true) (hbg : vc params[2] = true)
    (pre : List String) (a : String) (post : List String)
    (hattrs : params.drop 3 = pre ++ a :: post)
    (hpre : ∀ x ∈ pre, va x = true) (ha : va a = false) :
    (handle_action vc va self "color" params).1
      = .error (.formatted "`%s' is not a valid attribute" a) := by
  obtain ⟨el, fg, bg, attrs, rfl⟩ := exists_cons3 params h
  simp only [List.getElem_cons_succ, List.getElem_cons_zero] at hfg hbg
  simp only [List.drop_succ_cons, List.drop_zero] at hattrs
  have hfind : attrs.find? (fun attr => !va attr) = some a := by
    rw [hattrs, List.find?_append, find_none_of_all_valid va pre hpre]
    simp [ha]
  rw [handle_action_color_cons]
  simp [hfg, hbg, hfind]

/-- An instance of C4: two invalid attributes and an unsupported element; the
leftmost invalid attribute is reported. -/
theorem handle_action_invalid_attribute_witness :
    (handle_action sample_is_valid_color sample_is_valid_attribute ColorManager.new
        "color" ["nosuchelement", "red", "default", "bold", "shiny", "glossy", "dim"]).1
      = .error (.formatted "`%s' is not a valid attribute" "shiny") :=
  handle_action_invalid_attribute sample_is_valid_color sample_is_valid_attribute ColorManager.new
    ["nosuchelement", "red", "default", "bold", "shiny", "glossy", "dim"] (by decide)
    (by decide) (by decide) ["bold"] "shiny" ["glossy", "dim"] (by decide) (by decide) (by decide)

/-- C5: with action `color` and at least three parameters: when both colours
and all attributes are valid, the call throws the unsupported-element message
carrying `params[0]` exactly when `params[0]` is none of the nine names; and when
a colour or an attribute is invalid, the call does not throw the
unsupported-element message, for any token. -/
theorem handle_action_unsupported_element (vc va : String → Bool) (self : ColorManager)
    (params : List String) (h : 3 ≤ params.length) :
    (vc params[1] = true → vc params[2] = true → (∀ a ∈ params.drop 3, va a = true) →
      ((handle_action vc va self "color" params).1
          = .error (.formatted "`%s' is not a valid configuration element" params[0])
        ↔ params[0] ∉ ["listnormal", "listfocus", "listnormal_unread", "listfocus_unread",
            "info", "background", "article", "end-of-text-marker", "title"])) ∧
    (¬ (vc params[1] = true ∧ vc params[2] = true ∧ ∀ a ∈ params.drop 3, va a = true) →
      ∀ token : String, (handle_action vc va self "color" params).1
          ≠ .error (.formatted "`%s' is not a valid configuration element" token)) := by
  obtain ⟨el, fg, bg, attrs, rfl⟩ := exists_cons3 params h
  simp only [List.getElem_cons_succ, List.getElem_cons_zero, List.drop_succ_cons, List.drop_zero]
  constructor
  · intro hfg hbg hat
    have hfind := find_none_of_all_valid va attrs hat
    rw [handle_action_color_cons]
    by_cases hel : el ∈ supported_elements
    · have hel2 := hel
      simp only [supported_elements] at hel2
      simp [hfg, hbg, hfind, hel, hel2]
    · have hel2 := hel
      simp only [supported_elements] at hel2
      simp [hfg, hbg, hfind, hel, hel2]
  · intro hinv token
    rw [handle_action_color_cons]
    by_cases hfg : vc fg = true
    · by_cases hbg : vc bg = true
      · cases hfind : attrs.find? (fun attr => !va attr) with
        | none =>
          exfalso
          apply hinv
          refine ⟨hfg, hbg, ?_⟩
          intro a ha
          have := List.find?_eq_none.mp hfind a ha
          simpa using this
        | some attr => simp [hfg, hbg]
      · simp [hfg, hbg]
    · simp [hfg]

/-- Instances of C5: `Title` differs from `title` by case and is rejected; an
invalid attribute hides an unsupported element. -/
theorem handle_action_unsupported_element_witness :
    ((handle_action sample_is_valid_color sample_is_valid_attribute ColorManager.new
          "color" ["Title", "red", "default", "bold"]).1
        = .error (.formatted "`%s' is not a valid configuration element" "Title")
      ↔ "Title" ∉ ["listnormal", "listfocus", "listnormal_unread", "listfocus_unread",
            "info", "background", "article", "end-of-text-marker", "title"]) ∧
    (∀ token : String,
      (handle_action sample_is_valid_color sample_is_valid_attribute ColorManager.new
          "color" ["nosuchelement", "red", "default", "shiny"]).1
        ≠ .error (.formatted "`%s' is not a valid configuration element" token)) :=
  ⟨(handle_action_unsupported_element sample_is_valid_color sample_is_valid_attribute
      ColorManager.new ["Title", "red", "default", "bold"] (by decide)).1
      (by decide) (by decide) (by decide),
   (handle_action_unsupported_element sample_is_valid_color sample_is_valid_attribute
      ColorManager.new ["nosuchelement", "red", "default", "shiny"] (by decide)).2 (by decide)⟩

/-- C6: with action `color` and fewer than three parameters (none included),
the call throws `TOO_FEW_PARAMS` and leaves the object as it was, whatever the
parameters are. -/
theorem handle_action_too_few_params (vc va : String → Bool) (self : ColorManager)
    (params : List String) (h : params.length < 3) :
    (handle_action vc va self "color" params).1 = .error (.status .TOO_FEW_PARAMS) ∧
    (handle_action vc va self "color" params).2 = self := by
  rw [handle_action_color_short vc va self params h]
  exact ⟨rfl, rfl⟩

/-- Instances of C6: no parameter, and two parameters. -/
theorem handle_action_too_few_params_witness :
    ((handle_action sample_is_valid_color sample_is_valid_attribute ColorManager.new
        "color" []).1 = .error (.status .TOO_FEW_PARAMS) ∧
     (handle_action sample_is_valid_color sample_is_valid_attribute ColorManager.new
        "color" []).2 = ColorManager.new) ∧
    ((handle_action sample_is_valid_color sample_is_valid_attribute ColorManager.new
        "color" ["title", "red"]).1 = .error (.status .TOO_FEW_PARAMS) ∧
     (handle_action sample_is_valid_color sample_is_valid_attribute ColorManager.new
        "color" ["title", "red"]).2 = ColorManager.new) :=
  ⟨handle_action_too_few_params sample_is_valid_color sample_is_valid_attribute
      ColorManager.new [] (by decide),
   handle_action_too_few_params sample_is_valid_color sample_is_valid_attribute
      ColorManager.new ["title", "red"] (by decide)⟩

/-- C7: an action other than exactly `color` makes the call throw
`INVALID_COMMAND`, for every parameter list: the action is looked at before the
number of parameters and before any of them. -/
theorem handle_action_invalid_command (vc va : String → Bool) (self : ColorManager)
    (action : String) (params : List String) (h : action ≠ "color") :
    (handle_action vc va self action params).1 = .error (.status .INVALID_COMMAND) := by
  rw [handle_action_other vc va self action params h]

/-- Instances of C7: `Color` without parameters, and `colour` with four invalid
tokens. -/
theorem handle_action_invalid_command_witness :
    (handle_action sample_is_valid_color sample_is_valid_attribute ColorManager.new
        "Color" []).1 = .error (.status .INVALID_COMMAND) ∧
    (handle_action sample_is_valid_color sample_is_valid_attribute ColorManager.new
        "colour" ["nosuchelement", "pink", "purple", "shiny"]).1
      = .error (.status .INVALID_COMMAND) :=
  ⟨handle_action_invalid_command sample_is_valid_color sample_is_valid_attribute
      ColorManager.new "Color" [] (by decide),
   handle_action_invalid_command sample_is_valid_color sample_is_valid_attribute
      ColorManager.new "colour" ["nosuchelement", "pink", "purple", "shiny"] (by decide)⟩

/-! ## Properties of dump_config and of replaying its output -/

/-- C8: after a valid directive (element among the nine names, valid colours,
valid attributes) is handled, the call has succeeded and the dump holds the line
`color element fg bg` followed by a space and the attribute for each attribute
in the order given. That line is the only one for the element: the entries are
`before`, the element, `after`, with no entry of `before` or `after` keyed by
the element, and the dump is the lines of `before`, that line, the lines of
`after`; and when the keys held before the call are element names, no other
line of the dump reads back with the element as its first parameter. -/
theorem dump_config_after_handle_action (vc va : String → Bool) (self : ColorManager)
    (element fg bg : String) (attrs : List String)
    (hel : element ∈ ["listnormal", "listfocus", "listnormal_unread", "listfocus_unread",
      "info", "background", "article", "end-of-text-marker", "title"])
    (hfg : vc fg = true) (hbg : vc bg = true) (hat : ∀ a ∈ attrs, va a = true) :
    (handle_action vc va self "color" (element :: fg :: bg :: attrs)).1 = .ok () ∧
    ("color " ++ element ++ " " ++ fg ++ " " ++ bg ++ String.join (attrs.map (fun a => " " ++ a)))
      ∈ dump_config (handle_action vc va self "color" (element :: fg :: bg :: attrs)).2 [] ∧
    (∃ before after : List (String × TextStyle),
      (handle_action vc va self "color" (element :: fg :: bg :: attrs)).2.element_styles.entries
        = before ++ (element, ⟨fg, bg, attrs⟩) :: after ∧
      element ∉ before.map Prod.fst ∧ element ∉ after.map Prod.fst ∧
      dump_config (handle_action vc va self "color" (element :: fg :: bg :: attrs)).2 []
        = before.map (fun e => configline e.1 e.2)
          ++ ("color " ++ element ++ " " ++ fg ++ " " ++ bg
                ++ String.join (attrs.map (fun a => " " ++ a)))
          :: after.map (fun e => configline e.1 e.2)) ∧
    ((∀ e ∈ self.element_styles.entries, e.1 ∈ supported_elements) →
      ∀ line ∈ dump_config (handle_action vc va self "color" (element :: fg :: bg :: attrs)).2 [],
        (split_line line).2.head? = some element →
        line = "color " ++ element ++ " " ++ fg ++ " " ++ bg
                ++ String.join (attrs.map (fun a => " " ++ a))) := by
  rw [handle_action_ok vc va self element fg bg attrs hel hfg hbg hat]
  obtain ⟨before, after, hent, hb, ha, hold⟩ :=
    assign_decompose self.element_styles element ⟨fg, bg, attrs⟩
  have hline := configline_eq element ⟨fg, bg, attrs⟩
  simp only at hline
  have hdump : dump_config ⟨self.element_styles.assign element ⟨fg, bg, attrs⟩⟩ []
      = before.map (fun e => configline e.1 e.2)
          ++ ("color " ++ element ++ " " ++ fg ++ " " ++ bg
                ++ String.join (attrs.map (fun a => " " ++ a)))
          :: after.map (fun e => configline e.1 e.2) := by
    rw [dump_config_eq_map]
    simp only [List.nil_append]
    rw [hent, List.map_append, List.map_cons, hline]
  refine ⟨rfl, ?_, ⟨before, after, hent, hb, ha, hdump⟩, ?_⟩
  · rw [hdump]
    simp
  · intro hkeys line hmem htok
    rw [hdump] at hmem
    have hother : ∀ e ∈ before ++ after, line = configline e.1 e.2 → False := by
      intro e he hl
      have hk : e.1 ∈ supported_elements := hkeys e (hold e he)
      rw [hl, split_line_configline_element e.1 e.2 (supported_elements_no_space _ hk)] at htok
      have hkey : e.1 = element := Option.some.inj htok
      rcases List.mem_append.mp he with h | h
      · exact hb (List.mem_map.mpr ⟨e, h, hkey⟩)
      · exact ha (List.mem_map.mpr ⟨e, h, hkey⟩)
    rcases List.mem_append.mp hmem with h | h
    · obtain ⟨e, he, hl⟩ := List.mem_map.mp h
      exact (hother e (List.mem_append_left _ he) hl.symm).elim
    · rcases List.mem_cons.mp h with h | h
      · exact h
      · obtain ⟨e, he, hl⟩ := List.mem_map.mp h
        exact (hother e (List.mem_append_right _ he) hl.symm).elim

/-- An instance of C8: `title` is overwritten in an object that also holds
`info`. -/
theorem dump_config_after_handle_action_witness :
    (handle_action sample_is_valid_color sample_is_valid_attribute
        (handle_action sample_is_valid_color sample_is_valid_attribute
          (handle_action sample_is_valid_color sample_is_valid_attribute ColorManager.new
            "color" ["title", "red", "default"]).2
          "color" ["info", "green", "black"]).2
        "color" ["title", "blue", "black", "bold", "underline"]).1 = .ok () ∧
    "color title blue black bold underline"
      ∈ dump_config (handle_action sample_is_valid_color sample_is_valid_attribute
        (handle_action sample_is_valid_color sample_is_valid_attribute
          (handle_action sample_is_valid_color sample_is_valid_attribute ColorManager.new
            "color" ["title", "red", "default"]).2
          "color" ["info", "green", "black"]).2
        "color" ["title", "blue", "black", "bold", "underline"]).2 [] ∧
    ∀ line ∈ dump_config (handle_action sample_is_valid_color sample_is_valid_attribute
        (handle_action sample_is_valid_color sample_is_valid_attribute
          (handle_action sample_is_valid_color sample_is_valid_attribute ColorManager.new
            "color" ["title", "red", "default"]).2
          "color" ["info", "green", "black"]).2
        "color" ["title", "blue", "black", "bold", "underline"]).2 [],
      (split_line line).2.head? = some "title" →
      line = "color title blue black bold underline" :=
  ⟨(dump_config_after_handle_action sample_is_valid_color sample_is_valid_attribute _
      "title" "blue" "black" ["bold", "underline"]
      (by decide) (by decide) (by decide) (by decide)).1,
   (dump_config_after_handle_action sample_is_valid_color sample_is_valid_attribute _
      "title" "blue" "black" ["bold", "underline"]
      (by decide) (by decide) (by decide) (by decide)).2.1,
   (dump_config_after_handle_action sample_is_valid_color sample_is_valid_attribute _
      "title" "blue" "black" ["bold", "underline"]
      (by decide) (by decide) (by decide) (by decide)).2.2.2 (by decide)⟩

/-- C9: for an object reachable from a fresh one by calls of `handle_action`,
when every valid colour name and every valid attribute name is non-empty and
free of spaces, splitting each dumped line at single spaces and feeding the
lines in order to `handle_action`, starting from a fresh object, succeeds at
every line and ends in the object that was dumped. -/
theorem dump_replay_round_trip (vc va : String → Bool) (self : ColorManager)
    (hreach : Reachable vc va self)
    (hvc : ∀ s, vc s = true → s ≠ "" ∧ ' ' ∉ s.data)
    (hva : ∀ s, va s = true → s ≠ "" ∧ ' ' ∉ s.data) :
    (replay vc va ColorManager.new (dump_config self [])).1
        = List.replicate (dump_config self []).length (.ok ()) ∧
    (replay vc va ColorManager.new (dump_config self [])).2 = self := by
  have hdump : dump_config self []
      = self.element_styles.entries.map (fun e => configline e.1 e.2) := by
    rw [dump_config_eq_map]; simp
  have hrec := replay_dumped_entries vc va (fun s h => (hvc s h).2) (fun s h => (hva s h).2)
    self.element_styles.entries ColorManager.new (reachable_entries_valid vc va self hreach)
    (by simpa [ColorManager.new, StyleMap.empty] using self.element_styles.nodup)
  rw [hdump]
  refine ⟨by rw [hrec.1]; simp, ?_⟩
  apply ColorManager.ext_entries
  rw [hrec.2]
  simp [ColorManager.new, StyleMap.empty]

/-- An instance of C9: an object with two entries, under the sample validators. -/
theorem dump_replay_round_trip_witness :
    (replay sample_is_valid_color sample_is_valid_attribute ColorManager.new
        (dump_config
          (handle_action sample_is_valid_color sample_is_valid_attribute
            (handle_action sample_is_valid_color sample_is_valid_attribute ColorManager.new
              "color" ["title", "red", "default", "bold", "underline"]).2
            "color" ["info", "green", "black"]).2 [])).1
        = List.replicate
            (dump_config
              (handle_action sample_is_valid_color sample_is_valid_attribute
                (handle_action sample_is_valid_color sample_is_valid_attribute ColorManager.new
                  "color" ["title", "red", "default", "bold", "underline"]).2
                "color" ["info", "green", "black"]).2 []).length (.ok ()) ∧
    (replay sample_is_valid_color sample_is_valid_attribute ColorManager.new
        (dump_config
          (handle_action sample_is_valid_color sample_is_valid_attribute
            (handle_action sample_is_valid_color sample_is_valid_attribute ColorManager.new
              "color" ["title", "red", "default", "bold", "underline"]).2
            "color" ["info", "green", "black"]).2 [])).2
      = (handle_action sample_is_valid_color sample_is_valid_attribute
            (handle_action sample_is_valid_color sample_is_valid_attribute ColorManager.new
              "color" ["title", "red", "default", "bold", "underline"]).2
            "color" ["info", "green", "black"]).2 :=
  dump_replay_round_trip sample_is_valid_color sample_is_valid_attribute _
    (Reachable.step _ "color" ["info", "green", "black"]
      (Reachable.step _ "color" ["title", "red", "default", "bold", "underline"] Reachable.new))
    (by
      intro s h
      simp only [sample_is_valid_color, List.contains_eq_any_beq, List.any_cons, List.any_nil,
        Bool.or_false, Bool.or_eq_true, beq_iff_eq] at h
      rcases h with h | h | h | h | h | h | h | h | h <;> subst h <;> decide)
    (by
      intro s h
      simp only [sample_is_valid_attribute, List.contains_eq_any_beq, List.any_cons, List.any_nil,
        Bool.or_false, Bool.or_eq_true, beq_iff_eq] at h
      rcases h with h | h | h | h | h | h | h | h <;> subst h <;> decide)

/-- C10: `dump_config` keeps what `config_output` held as a prefix and appends
one line per entry, in the order of the entries: for the entry
`(element, {fg, bg, attrs})` the line is `color element fg bg` followed by a
space and the attribute for each attribute in stored order. The number of
appended lines is the number of entries; the function is total. -/
theorem dump_config_appends_lines (self : ColorManager) (config_output : List String) :
    dump_config self config_output
      = config_output ++ self.element_styles.entries.map (fun e =>
          "color " ++ e.1 ++ " " ++ e.2.fg_color ++ " " ++ e.2.bg_color
            ++ String.join (e.2.attributes.map (fun a => " " ++ a))) ∧
    (dump_config self config_output).length
      = config_output.length + self.element_styles.entries.length := by
  rw [dump_config_eq_map]
  constructor
  · congr 1
    exact List.map_congr_left (fun e _ => configline_eq e.1 e.2)
  · simp

/-! ## Auxiliary facts on format_style and apply_colors -/

/-- Appending to a non-empty string gives a non-empty string. -/
theorem append_ne_empty_left (a b : String) (h : a ≠ "") : a ++ b ≠ "" := by
  intro hab
  apply h
  apply String.ext
  have hd := congrArg String.data hab
  rw [String.data_append] at hd
  exact (List.append_eq_nil.mp hd).1

/-- Appending a non-empty string gives a non-empty string. -/
theorem append_ne_empty_right (a b : String) (h : b ≠ "") : a ++ b ≠ "" := by
  intro hab
  apply h
  apply String.ext
  have hd := congrArg String.data hab
  rw [String.data_append] at hd
  exact (List.append_eq_nil.mp hd).2

/-- Appending segments to a non-empty string, a comma before each, never gives
the empty string, and is what `String.intercalate` does with its accumulator. -/
theorem foldl_segments_of_ne_empty (segs : List String) :
    ∀ acc : String, acc ≠ "" →
      segs.foldl (fun r seg => (if r ≠ "" then r ++ "," else r) ++ seg) acc ≠ "" ∧
      segs.foldl (fun r seg => (if r ≠ "" then r ++ "," else r) ++ seg) acc
        = String.intercalate.go acc "," segs := by
  induction segs with
  | nil => intro acc h; exact ⟨h, rfl⟩
  | cons a rest ih =>
    intro acc h
    have hstep : (if acc ≠ "" then acc ++ "," else acc) ++ a = acc ++ "," ++ a := by
      rw [if_pos h]
    have hne : acc ++ "," ++ a ≠ "" :=
      append_ne_empty_left _ _ (append_ne_empty_left _ _ h)
    simp only [List.foldl_cons, hstep, String.intercalate.go]
    exact ih _ hne

/-- Appending non-empty segments to the empty string, a comma before each but
the first: the result is the segments joined by commas, and it is empty only
when there is no segment. -/
theorem foldl_segments_empty (segs : List String) (hsegs : ∀ seg ∈ segs, seg ≠ "") :
    segs.foldl (fun r seg => (if r ≠ "" then r ++ "," else r) ++ seg) ""
        = String.intercalate "," segs ∧
    (segs.foldl (fun r seg => (if r ≠ "" then r ++ "," else r) ++ seg) "" = "" ↔ segs = []) := by
  cases segs with
  | nil => simp [String.intercalate]
  | cons a rest =>
    have ha : a ≠ "" := hsegs a (List.mem_cons_self a rest)
    have hstep : (if ("" : String) ≠ "" then "" ++ "," else "") ++ a = a := by
      simp
    simp only [List.foldl_cons, hstep, String.intercalate]
    have h := foldl_segments_of_ne_empty rest a ha
    exact ⟨h.2, iff_of_false h.1 (List.cons_ne_nil a rest)⟩

/-- The function `format_style` as a fold over its segments. -/
theorem format_style_eq_foldl (style : TextStyle) :
    format_style style
      = ((if style.fg_color ≠ "default" then ["fg=" ++ style.fg_color] else [])
          ++ (if style.bg_color ≠ "default" then ["bg=" ++ style.bg_color] else [])
          ++ style.attributes.map (fun a => "attr=" ++ a)).foldl
        (fun r seg => (if r ≠ "" then r ++ "," else r) ++ seg) "" := by
  have hattrs : ∀ (attrs : List String) (init : String),
      attrs.foldl (fun result attr => ((if result ≠ "" then result ++ "," else result)
          ++ "attr=") ++ attr) init
        = (attrs.map (fun a => "attr=" ++ a)).foldl
            (fun r seg => (if r ≠ "" then r ++ "," else r) ++ seg) init := by
    intro attrs
    induction attrs with
    | nil => intro init; rfl
    | cons a rest ih =>
      intro init
      simp only [List.foldl_cons, List.map_cons]
      rw [ih, String.append_assoc]
  unfold format_style
  simp only [hattrs, List.foldl_append]
  by_cases hfg : style.fg_color = "default" <;> by_cases hbg : style.bg_color = "default" <;>
    simp [hfg, hbg, String.append_assoc]

/-- Every segment of a formatted style is non-empty. -/
theorem format_segments_ne_empty (style : TextStyle) :
    ∀ seg ∈ (if style.fg_color ≠ "default" then ["fg=" ++ style.fg_color] else [])
          ++ (if style.bg_color ≠ "default" then ["bg=" ++ style.bg_color] else [])
          ++ style.attributes.map (fun a => "attr=" ++ a), seg ≠ "" := by
  intro seg hseg
  simp only [List.mem_append, List.mem_map] at hseg
  rcases hseg with (h | h) | ⟨a, _, h⟩
  · split at h
    · rw [List.mem_singleton.mp h]
      exact append_ne_empty_left _ _ (by decide)
    · simp at h
  · split at h
    · rw [List.mem_singleton.mp h]
      exact append_ne_empty_left _ _ (by decide)
    · simp at h
  · rw [← h]
    exact append_ne_empty_left _ _ (by decide)

/-- Nothing is found exactly when the key is not a key of the entries. -/
theorem find_entries_eq_none_iff (k : String) (l : List (String × TextStyle)) :
    StyleMap.find_entries k l = none ↔ k ∉ l.map Prod.fst := by
  induction l with
  | nil => simp [StyleMap.find_entries]
  | cons e rest ih =>
    by_cases h : e.1 = k
    · simp [StyleMap.find_entries, h]
    · have h2 : ¬ k = e.1 := fun h3 => h h3.symm
      simp only [StyleMap.find_entries, h, if_false, ih, List.map_cons, List.mem_cons, h2,
        false_or]

/-- What is found is the value of the first entry with the key. -/
theorem find_entries_split (k : String) (v : TextStyle) (l : List (String × TextStyle))
    (h : StyleMap.find_entries k l = some v) :
    ∃ before after, l = before ++ (k, v) :: after ∧ k ∉ before.map Prod.fst := by
  induction l with
  | nil => simp [StyleMap.find_entries] at h
  | cons e rest ih =>
    by_cases hk : e.1 = k
    · simp only [StyleMap.find_entries, hk, if_true, Option.some.injEq] at h
      refine ⟨[], rest, ?_, by simp⟩
      rw [← hk, ← h]
      rfl
    · simp only [StyleMap.find_entries, hk, if_false] at h
      obtain ⟨before, after, hl, hb⟩ := ih h
      refine ⟨e :: before, after, by rw [hl]; rfl, ?_⟩
      intro hmem
      rcases List.mem_cons.mp hmem with h1 | h1
      · exact hk h1.symm
      · exact hb h1

/-- In a map the entry found is the only one with its key. -/
theorem find_split (m : StyleMap) (k : String) (v : TextStyle) (h : m.find k = some v) :
    ∃ before after, m.entries = before ++ (k, v) :: after ∧
      k ∉ before.map Prod.fst ∧ k ∉ after.map Prod.fst := by
  obtain ⟨before, after, hl, hb⟩ := find_entries_split k v m.entries h
  refine ⟨before, after, hl, hb, ?_⟩
  have hnd := m.nodup
  rw [hl, List.map_append, List.map_cons] at hnd
  exact (List.nodup_cons.mp (List.nodup_append.mp hnd).2.1).1

/-- The loop of `apply_colors` makes the calls of `loop_calls` for each entry
in turn. -/
theorem apply_colors_eq (self : ColorManager) :
    apply_colors self
      = self.element_styles.entries.flatMap loop_calls
        ++ (match self.element_styles.find "title", self.element_styles.find "info" with
            | none, some style => [("title", format_style style)]
            | _, _ => []) := by
  have hloop : ∀ (es : List (String × TextStyle)) (init : List (String × String)),
      es.foldl
        (fun calls element_style =>
          let element := element_style.1
          let style := element_style.2
          let colorattr := format_style style
          let calls := calls ++ [(element, colorattr)]
          if element = "article" then
            let bold := colorattr
            let underline := colorattr
            let bold := if bold ≠ "" then bold ++ "," else bold
            let underline := if underline ≠ "" then underline ++ "," else underline
            let bold := bold ++ "attr=bold"
            let underline := underline ++ "attr=underline"
            let calls := calls ++ [("color_bold", bold)]
            calls ++ [("color_underline", underline)]
          else calls)
        init
      = init ++ es.flatMap loop_calls := by
    intro es
    induction es with
    | nil => intro init; simp
    | cons e rest ih =>
      intro init
      rw [List.foldl_cons, ih]
      by_cases h : e.1 = "article"
      · simp [List.flatMap_cons, loop_calls, h]
      · simp [List.flatMap_cons, loop_calls, h]
  unfold apply_colors
  simp only [hloop, List.nil_append]
  cases self.element_styles.find "title" <;> cases self.element_styles.find "info" <;> simp

/-- The keys of the calls of one iteration: the key of the entry, and for
`article` the two derived keys. -/
theorem key_of_mem_loop_calls (e : String × TextStyle) (c : String × String)
    (h : c ∈ loop_calls e) :
    c.1 = e.1 ∨ (e.1 = "article" ∧ (c.1 = "color_bold" ∨ c.1 = "color_underline")) := by
  unfold loop_calls at h
  rcases List.mem_cons.mp h with h1 | h1
  · left; rw [h1]
  · by_cases ha : e.1 = "article"
    · rw [if_pos ha] at h1
      right
      refine ⟨ha, ?_⟩
      rcases List.mem_cons.mp h1 with h2 | h2
      · left; rw [h2]
      · right; rw [List.mem_singleton.mp h2]
    · rw [if_neg ha] at h1
      simp at h1

/-- The calls of an iteration for an entry other than `article`. -/
theorem loop_calls_of_ne_article (e : String × TextStyle) (h : e.1 ≠ "article") :
    loop_calls e = [(e.1, format_style e.2)] := by
  simp [loop_calls, h]

/-- The calls of the iteration for `article`. -/
theorem loop_calls_article (style : TextStyle) :
    loop_calls ("article", style)
      = [("article", format_style style),
         ("color_bold", if format_style style = "" then "attr=bold"
            else format_style style ++ ",attr=bold"),
         ("color_underline", if format_style style = "" then "attr=underline"
            else format_style style ++ ",attr=underline")] := by
  by_cases h : format_style style = ""
  · simp [loop_calls, h]
  · simp [loop_calls, h, String.append_assoc]

/-- No supported element name is one of the two derived keys. -/
theorem supported_elements_ne_derived (k : String) (h : k ∈ supported_elements) :
    k ≠ "color_bold" ∧ k ≠ "color_underline" := by
  constructor <;> rintro rfl <;> revert h <;> decide

/-- Where a call of `apply_colors` comes from: an iteration of the loop, or the
fallback of `title` to `info`. -/
theorem mem_apply_colors (self : ColorManager) (c : String × String)
    (h : c ∈ apply_colors self) :
    (∃ e ∈ self.element_styles.entries, c ∈ loop_calls e) ∨
    (self.element_styles.find "title" = none ∧
      ∃ style, self.element_styles.find "info" = some style ∧ c = ("title", format_style style)) := by
  rw [apply_colors_eq] at h
  rcases List.mem_append.mp h with h1 | h1
  · left
    obtain ⟨e, he, hc⟩ := List.mem_flatMap.mp h1
    exact ⟨e, he, hc⟩
  · right
    cases ht : self.element_styles.find "title" with
    | some t => rw [ht] at h1; simp at h1
    | none =>
      cases hi : self.element_styles.find "info" with
      | none => rw [ht, hi] at h1; simp at h1
      | some style =>
        rw [ht, hi] at h1
        exact ⟨rfl, style, rfl, List.mem_singleton.mp h1⟩

/-- Without the derived calls, the loop makes one call per entry. -/
theorem filter_derived_loop_calls (es : List (String × TextStyle))
    (hkeys : ∀ e ∈ es, e.1 ∈ supported_elements) :
    (es.flatMap loop_calls).filter (fun c => c.1 ≠ "color_bold" ∧ c.1 ≠ "color_underline")
      = es.map (fun e => (e.1, format_style e.2)) := by
  induction es with
  | nil => rfl
  | cons e rest ih =>
    have hne := supported_elements_ne_derived e.1 (hkeys e (List.mem_cons_self e rest))
    rw [List.flatMap_cons, List.filter_append,
      ih (fun e2 he2 => hkeys e2 (List.mem_cons_of_mem e he2)), List.map_cons]
    by_cases ha : e.1 = "article"
    · simp [loop_calls, ha]
    · simp [loop_calls, ha, hne.1, hne.2]

/-- The loop makes no call for `title` when `title` is not a key. -/
theorem title_not_mem_loop_calls (es : List (String × TextStyle))
    (h : "title" ∉ es.map Prod.fst) : ∀ c ∈ es.flatMap loop_calls, c.1 ≠ "title" := by
  intro c hc hkey
  obtain ⟨e, he, hce⟩ := List.mem_flatMap.mp hc
  rcases key_of_mem_loop_calls e c hce with h1 | ⟨_, h1 | h1⟩
  · exact h (List.mem_map.mpr ⟨e, he, by rw [← h1, hkey]⟩)
  · rw [hkey] at h1; exact absurd h1 (by decide)
  · rw [hkey] at h1; exact absurd h1 (by decide)

/-- The loop makes no derived call when `article` is not a key and the keys are
element names. -/
theorem derived_not_mem_loop_calls (es : List (String × TextStyle))
    (hkeys : ∀ e ∈ es, e.1 ∈ supported_elements) (h : "article" ∉ es.map Prod.fst) :
    ∀ c ∈ es.flatMap loop_calls, c.1 ≠ "color_bold" ∧ c.1 ≠ "color_underline" := by
  intro c hc
  obtain ⟨e, he, hce⟩ := List.mem_flatMap.mp hc
  rcases key_of_mem_loop_calls e c hce with h1 | ⟨h1, _⟩
  · rw [h1]; exact supported_elements_ne_derived e.1 (hkeys e he)
  · exact absurd (List.mem_map.mpr ⟨e, he, h1⟩) h

/-- With an `article` entry, the calls of `apply_colors` are: the calls for the
entries before it, its three calls, the calls for the entries after it and the
fallback call if any. -/
theorem apply_colors_article_block (self : ColorManager) (style : TextStyle)
    (h : self.element_styles.find "article" = some style) :
    ∃ before after, self.element_styles.entries = before ++ ("article", style) :: after ∧
      "article" ∉ before.map Prod.fst ∧ "article" ∉ after.map Prod.fst ∧
      apply_colors self
        = before.flatMap loop_calls
          ++ [("article", format_style style),
              ("color_bold", if format_style style = "" then "attr=bold"
                else format_style style ++ ",attr=bold"),
              ("color_underline", if format_style style = "" then "attr=underline"
                else format_style style ++ ",attr=underline")]
          ++ (after.flatMap loop_calls
              ++ (match self.element_styles.find "title", self.element_styles.find "info" with
                  | none, some style => [("title", format_style style)]
                  | _, _ => [])) := by
  obtain ⟨before, after, hl, hb, ha⟩ := find_split self.element_styles "article" style h
  refine ⟨before, after, hl, hb, ha, ?_⟩
  rw [apply_colors_eq, hl, List.flatMap_append, List.flatMap_cons, loop_calls_article]
  simp only [List.append_assoc]

/-! ## Properties of format_style and apply_colors -/

/-- C11: for every style, `format_style` gives its segments joined by single
commas (so without a leading or trailing comma), the segments being, in this
order, `fg=` and the foreground unless it is `default`, `bg=` and the
background unless it is `default`, and `attr=` and the attribute for each
attribute in stored order. -/
theorem format_style_joins_segments (style : TextStyle) :
    format_style style
      = String.intercalate ","
          ((if style.fg_color ≠ "default" then ["fg=" ++ style.fg_color] else [])
            ++ (if style.bg_color ≠ "default" then ["bg=" ++ style.bg_color] else [])
            ++ style.attributes.map (fun a => "attr=" ++ a)) := by
  rw [format_style_eq_foldl]
  exact (foldl_segments_empty _ (format_segments_ne_empty style)).1

/-- C12: when the keys of the map are element names, the calls of
`apply_colors`, without the fallback call for `title` (the last call, made when
`title` has no entry and `info` has one) and without the calls for `color_bold`
and `color_underline`, are the pairs of element and formatted style of the
entries, in the order of the entries. -/
theorem apply_colors_element_calls (self : ColorManager)
    (hkeys : ∀ e ∈ self.element_styles.entries,
      e.1 ∈ ["listnormal", "listfocus", "listnormal_unread", "listfocus_unread",
        "info", "background", "article", "end-of-text-marker", "title"]) :
    ((if self.element_styles.find "title" = none ∧ self.element_styles.find "info" ≠ none
        then (apply_colors self).dropLast else apply_colors self).filter
      (fun c => c.1 ≠ "color_bold" ∧ c.1 ≠ "color_underline"))
      = self.element_styles.entries.map (fun e => (e.1, format_style e.2)) := by
  have hloop := filter_derived_loop_calls self.element_styles.entries hkeys
  rw [apply_colors_eq]
  cases ht : self.element_styles.find "title" with
  | some t => simpa using hloop
  | none =>
    cases hi : self.element_styles.find "info" with
    | none => simpa using hloop
    | some style =>
      simp only [ne_eq, not_false_eq_true, and_self, if_true, reduceCtorEq]
      rw [List.dropLast_concat]
      exact hloop

/-- An instance of C12: `article`, `info` and no `title`, so that the derived
calls and the fallback call are all made. -/
theorem apply_colors_element_calls_witness :
    ((if sample_article_info.element_styles.find "title" = none ∧
          sample_article_info.element_styles.find "info" ≠ none
        then (apply_colors sample_article_info).dropLast
        else apply_colors sample_article_info).filter
      (fun c => c.1 ≠ "color_bold" ∧ c.1 ≠ "color_underline"))
      = sample_article_info.element_styles.entries.map (fun e => (e.1, format_style e.2)) :=
  apply_colors_element_calls sample_article_info (by decide)

/-- C13: when the keys of the map are element names: with an `article` entry
whose formatted value is `v`, `apply_colors` makes the call for `article`,
then at once the call for `color_bold` and then the call for
`color_underline`, their values being `attr=bold` and `attr=underline` when
`v` is empty and `v` followed by `,attr=bold` and by `,attr=underline`
otherwise, and no other call has one of these two keys; without an `article`
entry no call has one of these two keys. -/
theorem apply_colors_article_derived (self : ColorManager)
    (hkeys : ∀ e ∈ self.element_styles.entries,
      e.1 ∈ ["listnormal", "listfocus", "listnormal_unread", "listfocus_unread",
        "info", "background", "article", "end-of-text-marker", "title"]) :
    (∀ style, self.element_styles.find "article" = some style →
      ∃ pre post : List (String × String),
        apply_colors self
          = pre ++ [("article", format_style style),
                    ("color_bold", if format_style style = "" then "attr=bold"
                      else format_style style ++ ",attr=bold"),
                    ("color_underline", if format_style style = "" then "attr=underline"
                      else format_style style ++ ",attr=underline")] ++ post ∧
        ∀ c ∈ pre ++ post, c.1 ≠ "color_bold" ∧ c.1 ≠ "color_underline") ∧
    (self.element_styles.find "article" = none →
      ∀ c ∈ apply_colors self, c.1 ≠ "color_bold" ∧ c.1 ≠ "color_underline") := by
  constructor
  · intro style h
    obtain ⟨before, after, hl, hb, ha, hcalls⟩ := apply_colors_article_block self style h
    refine ⟨before.flatMap loop_calls, _, hcalls, ?_⟩
    have hkb : ∀ e ∈ before, e.1 ∈ supported_elements :=
      fun e he => hkeys e (by rw [hl]; exact List.mem_append_left _ he)
    have hka : ∀ e ∈ after, e.1 ∈ supported_elements :=
      fun e he => hkeys e (by rw [hl]; exact List.mem_append_right _ (List.mem_cons_of_mem _ he))
    intro c hc
    rcases List.mem_append.mp hc with h1 | h1
    · exact derived_not_mem_loop_calls before hkb hb c h1
    · rcases List.mem_append.mp h1 with h2 | h2
      · exact derived_not_mem_loop_calls after hka ha c h2
      · cases ht : self.element_styles.find "title" with
        | some t => rw [ht] at h2; simp at h2
        | none =>
          cases hi : self.element_styles.find "info" with
          | none => rw [ht, hi] at h2; simp at h2
          | some st =>
            rw [ht, hi] at h2
            rw [List.mem_singleton.mp h2]
            exact ⟨(by decide : "title" ≠ "color_bold"), (by decide : "title" ≠ "color_underline")⟩
  · intro h c hc
    have hno : "article" ∉ self.element_styles.entries.map Prod.fst :=
      (find_entries_eq_none_iff "article" _).mp h
    rcases mem_apply_colors self c hc with ⟨e, he, hce⟩ | ⟨_, st, _, hcs⟩
    · exact derived_not_mem_loop_calls self.element_styles.entries hkeys hno c
        (List.mem_flatMap.mpr ⟨e, he, hce⟩)
    · rw [hcs]
      exact ⟨(by decide : "title" ≠ "color_bold"), (by decide : "title" ≠ "color_underline")⟩

/-- Instances of C13: the calls for `article = {white, black, [bold]}` followed
by `info`, and no derived call for an object holding only `info`. -/
theorem apply_colors_article_derived_witness :
    (∃ pre post : List (String × String),
      apply_colors sample_article_info
        = pre ++ [("article", "fg=white,bg=black,attr=bold"),
                  ("color_bold", "fg=white,bg=black,attr=bold,attr=bold"),
                  ("color_underline", "fg=white,bg=black,attr=bold,attr=underline")] ++ post ∧
      ∀ c ∈ pre ++ post, c.1 ≠ "color_bold" ∧ c.1 ≠ "color_underline") ∧
    (∀ c ∈ apply_colors sample_info, c.1 ≠ "color_bold" ∧ c.1 ≠ "color_underline") :=
  ⟨(apply_colors_article_derived sample_article_info (by decide)).1
      ⟨"white", "black", ["bold"]⟩ (by decide),
   (apply_colors_article_derived sample_info (by decide)).2 (by decide)⟩

/-- C14: when `title` has no entry, `apply_colors` makes a call for `title`
exactly when `info` has an entry; in that case the call is the last one, no
call before it is for `title`, and its value is the formatted style of
`info`. -/
theorem apply_colors_title_fallback (self : ColorManager)
    (hnotitle : self.element_styles.find "title" = none) :
    ((∃ c ∈ apply_colors self, c.1 = "title") ↔ self.element_styles.find "info" ≠ none) ∧
    (∀ style, self.element_styles.find "info" = some style →
      ∃ init : List (String × String),
        apply_colors self = init ++ [("title", format_style style)] ∧
        ∀ c ∈ init, c.1 ≠ "title") := by
  have hno : "title" ∉ self.element_styles.entries.map Prod.fst :=
    (find_entries_eq_none_iff "title" _).mp hnotitle
  have hloop := title_not_mem_loop_calls self.element_styles.entries hno
  have hcalls := apply_colors_eq self
  rw [hnotitle] at hcalls
  cases hi : self.element_styles.find "info" with
  | none =>
    rw [hi] at hcalls
    simp only [List.append_nil] at hcalls
    refine ⟨iff_of_false ?_ (by simp), by intro style h; cases h⟩
    rintro ⟨c, hc, hkey⟩
    rw [hcalls] at hc
    exact hloop c hc hkey
  | some st =>
    rw [hi] at hcalls
    simp only at hcalls
    refine ⟨iff_of_true ⟨("title", format_style st), by rw [hcalls]; simp, rfl⟩ (by simp), ?_⟩
    intro style h
    cases h
    exact ⟨_, hcalls, hloop⟩

/-- Instances of C14: an object holding only `info = {green, default, []}`
makes the call for `info` and then the call for `title`, both with `fg=green`;
a fresh object makes no call for `title`. -/
theorem apply_colors_title_fallback_witness :
    (∃ init : List (String × String),
      apply_colors sample_info = init ++ [("title", "fg=green")] ∧
      ∀ c ∈ init, c.1 ≠ "title") ∧
    apply_colors sample_info = [("info", "fg=green"), ("title", "fg=green")] ∧
    ¬ (∃ c ∈ apply_colors ColorManager.new, c.1 = "title") :=
  ⟨(apply_colors_title_fallback sample_info (by decide)).2 ⟨"green", "default", []⟩ (by decide),
   by decide,
   fun h => ((apply_colors_title_fallback ColorManager.new (by decide)).1.mp h) (by decide)⟩

/-- C15: when `title` has an entry, whether or not `info` has one,
`apply_colors` makes exactly one call for `title`, and its value is the
formatted style of `title` itself; the fallback to `info` adds no call. -/
theorem apply_colors_explicit_title (self : ColorManager) (style : TextStyle)
    (htitle : self.element_styles.find "title" = some style) :
    (apply_colors self).filter (fun c => c.1 = "title") = [("title", format_style style)] ∧
    apply_colors self = self.element_styles.entries.flatMap loop_calls := by
  have hcalls := apply_colors_eq self
  rw [htitle] at hcalls
  simp only [List.append_nil] at hcalls
  refine ⟨?_, hcalls⟩
  obtain ⟨before, after, hl, hb, ha⟩ := find_split self.element_styles "title" style htitle
  have hfilter : ∀ es : List (String × TextStyle), "title" ∉ es.map Prod.fst →
      (es.flatMap loop_calls).filter (fun c => c.1 = "title") = [] := by
    intro es hes
    rw [List.filter_eq_nil_iff]
    intro c hc
    simpa using title_not_mem_loop_calls es hes c hc
  rw [hcalls, hl, List.flatMap_append, List.flatMap_cons, List.filter_append, List.filter_append,
    hfilter before hb, hfilter after ha,
    loop_calls_of_ne_article ("title", style) (by decide : "title" ≠ "article")]
  simp

/-- An instance of C15: with `title = {red, default, []}` and
`info = {green, default, []}` the one call for `title` carries `fg=red`. -/
theorem apply_colors_explicit_title_witness :
    (apply_colors sample_title_info).filter (fun c => c.1 = "title") = [("title", "fg=red")] ∧
    apply_colors sample_title_info
      = sample_title_info.element_styles.entries.flatMap loop_calls :=
  apply_colors_explicit_title sample_title_info ⟨"red", "default", []⟩ (by decide)

/-! ## Sequences of calls of handle_action -/

/-- Assigning twice to the same key is assigning the second value. -/
theorem assign_entries_twice (k : String) (v1 v2 : TextStyle) (l : List (String × TextStyle)) :
    assign_entries k v2 (assign_entries k v1 l) = assign_entries k v2 l := by
  induction l with
  | nil => simp [assign_entries]
  | cons e rest ih =>
    by_cases h : e.1 = k
    · simp [assign_entries, h]
    · simp [assign_entries, h, ih]

/-- A call of `handle_action` either leaves every object as it is, or is a
valid directive for a supported element. -/
theorem handle_action_cases (vc va : String → Bool) (action : String) (params : List String) :
    (∀ cm : ColorManager, (handle_action vc va cm action params).2 = cm) ∨
    ∃ element fg bg attrs, action = "color" ∧ params = element :: fg :: bg :: attrs ∧
      element ∈ supported_elements ∧ vc fg = true ∧ vc bg = true ∧ ∀ a ∈ attrs, va a = true := by
  by_cases h1 : action = "color"
  · subst h1
    by_cases h2 : params.length < 3
    · left
      intro cm
      rw [handle_action_color_short vc va cm params h2]
    · obtain ⟨el, fg, bg, attrs, rfl⟩ := exists_cons3 params (by omega)
      by_cases hfg : vc fg = true
      · by_cases hbg : vc bg = true
        · by_cases hat : ∀ a ∈ attrs, va a = true
          · by_cases hel : el ∈ supported_elements
            · right
              exact ⟨el, fg, bg, attrs, rfl, rfl, hel, hfg, hbg, hat⟩
            · left
              intro cm
              rw [handle_action_color_cons]
              simp [hfg, hbg, find_none_of_all_valid va attrs hat, hel]
          · left
            intro cm
            rw [handle_action_color_cons]
            cases hfind : attrs.find? (fun attr => !va attr) with
            | none =>
              exfalso
              apply hat
              intro a ha
              simpa using List.find?_eq_none.mp hfind a ha
            | some attr => simp [hfg, hbg]
        · left
          intro cm
          rw [handle_action_color_cons]
          simp [hfg, hbg]
      · left
        intro cm
        rw [handle_action_color_cons]
        simp [hfg]
  · left
    intro cm
    rw [handle_action_other vc va cm action params h1]

/-- C16: in every object reachable from a fresh one by calls of
`handle_action` (any actions and parameters, succeeding or not), every key is
one of the nine element names and every style has a valid foreground, a valid
background and only valid attributes. -/
theorem reachable_store_invariant (vc va : String → Bool) (self : ColorManager)
    (hreach : Reachable vc va self) :
    ∀ e ∈ self.element_styles.entries,
      e.1 ∈ ["listnormal", "listfocus", "listnormal_unread", "listfocus_unread",
        "info", "background", "article", "end-of-text-marker", "title"] ∧
      vc e.2.fg_color = true ∧ vc e.2.bg_color = true ∧
      ∀ a ∈ e.2.attributes, va a = true :=
  fun e he => reachable_entries_valid vc va self hreach e he

/-- An instance of C16: the entry for `title` in an object reached by four
calls, two of them failing. -/
theorem reachable_store_invariant_witness :
    (("title", ⟨"red", "default", ["bold"]⟩) : String × TextStyle)
      ∈ (handle_action sample_is_valid_color sample_is_valid_attribute
        (handle_action sample_is_valid_color sample_is_valid_attribute
          (handle_action sample_is_valid_color sample_is_valid_attribute
            (handle_action sample_is_valid_color sample_is_valid_attribute ColorManager.new
              "color" ["title", "red", "default", "bold"]).2
            "color" ["nosuchelement", "red", "default"]).2
          "color" ["info", "pink", "default"]).2
        "color" ["info", "green", "black"]).2.element_styles.entries ∧
    ("title" ∈ ["listnormal", "listfocus", "listnormal_unread", "listfocus_unread",
        "info", "background", "article", "end-of-text-marker", "title"] ∧
      sample_is_valid_color "red" = true ∧ sample_is_valid_color "default" = true ∧
      ∀ a ∈ ["bold"], sample_is_valid_attribute a = true) :=
  ⟨by decide,
   reachable_store_invariant sample_is_valid_color sample_is_valid_attribute _
    (Reachable.step _ "color" ["info", "green", "black"]
      (Reachable.step _ "color" ["info", "pink", "default"]
        (Reachable.step _ "color" ["nosuchelement", "red", "default"]
          (Reachable.step _ "color" ["title", "red", "default", "bold"] Reachable.new))))
    ("title", ⟨"red", "default", ["bold"]⟩) (by decide)⟩

/-- C17: for two valid directives for the same element, handling the first and
then the second succeeds both times and leaves the object that handling only
the second leaves; the element then maps to the style of the second
directive. -/
theorem handle_action_last_write_wins (vc va : String → Bool) (self : ColorManager)
    (element fg1 bg1 : String) (attrs1 : List String) (fg2 bg2 : String) (attrs2 : List String)
    (hel : element ∈ ["listnormal", "listfocus", "listnormal_unread", "listfocus_unread",
      "info", "background", "article", "end-of-text-marker", "title"])
    (hfg1 : vc fg1 = true) (hbg1 : vc bg1 = true) (hat1 : ∀ a ∈ attrs1, va a = true)
    (hfg2 : vc fg2 = true) (hbg2 : vc bg2 = true) (hat2 : ∀ a ∈ attrs2, va a = true) :
    (handle_action vc va self "color" (element :: fg1 :: bg1 :: attrs1)).1 = .ok () ∧
    (handle_action vc va
        (handle_action vc va self "color" (element :: fg1 :: bg1 :: attrs1)).2
        "color" (element :: fg2 :: bg2 :: attrs2)).1 = .ok () ∧
    (handle_action vc va
        (handle_action vc va self "color" (element :: fg1 :: bg1 :: attrs1)).2
        "color" (element :: fg2 :: bg2 :: attrs2)).2
      = (handle_action vc va self "color" (element :: fg2 :: bg2 :: attrs2)).2 ∧
    (handle_action vc va
        (handle_action vc va self "color" (element :: fg1 :: bg1 :: attrs1)).2
        "color" (element :: fg2 :: bg2 :: attrs2)).2.element_styles.find element
      = some ⟨fg2, bg2, attrs2⟩ := by
  rw [handle_action_ok vc va self element fg1 bg1 attrs1 hel hfg1 hbg1 hat1,
    handle_action_ok vc va _ element fg2 bg2 attrs2 hel hfg2 hbg2 hat2,
    handle_action_ok vc va self element fg2 bg2 attrs2 hel hfg2 hbg2 hat2]
  refine ⟨rfl, rfl, ?_, ?_⟩
  · apply ColorManager.ext_entries
    exact assign_entries_twice element _ _ _
  · exact find_entries_assign_same element _ _

/-- An instance of C17: `color title red default`, then
`color title blue default`, on an object that holds `info`. -/
theorem handle_action_last_write_wins_witness :
    (handle_action sample_is_valid_color sample_is_valid_attribute sample_info
        "color" ["title", "red", "default"]).1 = .ok () ∧
    (handle_action sample_is_valid_color sample_is_valid_attribute
        (handle_action sample_is_valid_color sample_is_valid_attribute sample_info
          "color" ["title", "red", "default"]).2
        "color" ["title", "blue", "default"]).1 = .ok () ∧
    (handle_action sample_is_valid_color sample_is_valid_attribute
        (handle_action sample_is_valid_color sample_is_valid_attribute sample_info
          "color" ["title", "red", "default"]).2
        "color" ["title", "blue", "default"]).2
      = (handle_action sample_is_valid_color sample_is_valid_attribute sample_info
          "color" ["title", "blue", "default"]).2 ∧
    (handle_action sample_is_valid_color sample_is_valid_attribute
        (handle_action sample_is_valid_color sample_is_valid_attribute sample_info
          "color" ["title", "red", "default"]).2
        "color" ["title", "blue", "default"]).2.element_styles.find "title"
      = some ⟨"blue", "default", []⟩ :=
  handle_action_last_write_wins sample_is_valid_color sample_is_valid_attribute sample_info
    "title" "red" "default" [] "blue" "default" []
    (by decide) (by decide) (by decide) (by decide) (by decide) (by decide) (by decide)

/-- C18: for every object, action and parameter list, a second call of
`handle_action` with the same action and parameters has the outcome of the
first (both return, or both throw the same exception) and leaves the object
that the first call left. -/
theorem handle_action_idempotent (vc va : String → Bool) (self : ColorManager)
    (action : String) (params : List String) :
    (handle_action vc va (handle_action vc va self action params).2 action params).1
      = (handle_action vc va self action params).1 ∧
    (handle_action vc va (handle_action vc va self action params).2 action params).2
      = (handle_action vc va self action params).2 := by
  rcases handle_action_cases vc va action params with
    h | ⟨el, fg, bg, attrs, rfl, rfl, hel, hfg, hbg, hat⟩
  · rw [h self]
    exact ⟨rfl, h self⟩
  · rw [handle_action_ok vc va self el fg bg attrs hel hfg hbg hat,
      handle_action_ok vc va _ el fg bg attrs hel hfg hbg hat]
    refine ⟨rfl, ?_⟩
    apply ColorManager.ext_entries
    exact assign_entries_twice el _ _ _

/-! ## Empty and extended formatted styles -/

/-- Formatting a style with one more attribute at the end: a comma unless the
formatted style is empty, then `attr=` and the attribute. -/
theorem format_style_snoc (style : TextStyle) (a : String) :
    format_style ⟨style.fg_color, style.bg_color, style.attributes ++ [a]⟩
      = (if format_style style ≠ "" then format_style style ++ "," else format_style style)
          ++ "attr=" ++ a := by
  simp only [format_style, List.foldl_append, List.foldl_cons, List.foldl_nil]

/-- C19: for every style, `format_style` gives the empty string exactly when
the foreground is `default`, the background is `default` and there is no
attribute; so a style with an attribute, or with an empty foreground or
background name, does not format to the empty string. -/
theorem format_style_eq_empty_iff (style : TextStyle) :
    (format_style style = ""
      ↔ style.fg_color = "default" ∧ style.bg_color = "default" ∧ style.attributes = []) ∧
    (style.attributes ≠ [] → format_style style ≠ "") ∧
    (style.fg_color = "" ∨ style.bg_color = "" → format_style style ≠ "") := by
  have hiff : format_style style = ""
      ↔ style.fg_color = "default" ∧ style.bg_color = "default" ∧ style.attributes = [] := by
    rw [format_style_eq_foldl, (foldl_segments_empty _ (format_segments_ne_empty style)).2]
    by_cases hfg : style.fg_color = "default" <;> by_cases hbg : style.bg_color = "default" <;>
      simp [hfg, hbg]
  refine ⟨hiff, ?_, ?_⟩
  · intro hattrs h
    exact hattrs (hiff.mp h).2.2
  · intro hcol h
    rcases hcol with hc | hc
    · have := (hiff.mp h).1
      rw [hc] at this
      exact absurd this (by decide)
    · have := (hiff.mp h).2.1
      rw [hc] at this
      exact absurd this (by decide)

/-- Instances of C19: one attribute on default colours, and an empty
foreground name. -/
theorem format_style_eq_empty_iff_witness :
    format_style ⟨"default", "default", ["bold"]⟩ ≠ "" ∧
    format_style ⟨"", "default", []⟩ ≠ "" ∧
    format_style ⟨"default", "default", []⟩ = "" :=
  ⟨(format_style_eq_empty_iff ⟨"default", "default", ["bold"]⟩).2.1 (by decide),
   (format_style_eq_empty_iff ⟨"", "default", []⟩).2.2 (Or.inl rfl),
   (format_style_eq_empty_iff ⟨"default", "default", []⟩).1.mpr ⟨rfl, rfl, rfl⟩⟩

/-- C20: for every style and attribute name, formatting the style with the
attribute appended at the end of its attributes gives the formatted style,
then a comma unless the formatted style is empty, then `attr=` and the
attribute; and for every object whose `article` entry is the style, the values
that `apply_colors` passes for `color_bold` and `color_underline`, right after
the call for `article`, are the formatted style with `bold`, respectively
`underline`, appended at the end of its attributes. -/
theorem format_style_extended (style : TextStyle) :
    (∀ a : String,
      format_style ⟨style.fg_color, style.bg_color, style.attributes ++ [a]⟩
        = format_style style ++ (if format_style style = "" then "" else ",") ++ "attr=" ++ a) ∧
    (∀ self : ColorManager, self.element_styles.find "article" = some style →
      ∃ pre post : List (String × String),
        apply_colors self
          = pre ++ [("article", format_style style),
                    ("color_bold",
                      format_style ⟨style.fg_color, style.bg_color, style.attributes ++ ["bold"]⟩),
                    ("color_underline",
                      format_style
                        ⟨style.fg_color, style.bg_color, style.attributes ++ ["underline"]⟩)]
              ++ post) := by
  constructor
  · intro a
    rw [format_style_snoc]
    by_cases h : format_style style = ""
    · simp [h]
    · simp [h]
  · intro self h
    obtain ⟨before, after, _, _, _, hcalls⟩ := apply_colors_article_block self style h
    have hbold : (if format_style style = "" then "attr=bold"
          else format_style style ++ ",attr=bold")
        = format_style ⟨style.fg_color, style.bg_color, style.attributes ++ ["bold"]⟩ := by
      rw [format_style_snoc]
      by_cases hv : format_style style = ""
      · simp [hv]
      · simp [hv, String.append_assoc]
    have hunderline : (if format_style style = "" then "attr=underline"
          else format_style style ++ ",attr=underline")
        = format_style ⟨style.fg_color, style.bg_color, style.attributes ++ ["underline"]⟩ := by
      rw [format_style_snoc]
      by_cases hv : format_style style = ""
      · simp [hv]
      · simp [hv, String.append_assoc]
    rw [hbold, hunderline] at hcalls
    exact ⟨_, _, hcalls⟩

/-- An instance of C20 for `article = {white, black, [bold]}`. -/
theorem format_style_extended_witness :
    ∃ pre post : List (String × String),
      apply_colors sample_article_info
        = pre ++ [("article", format_style ⟨"white", "black", ["bold"]⟩),
                  ("color_bold", format_style ⟨"white", "black", ["bold", "bold"]⟩),
                  ("color_underline", format_style ⟨"white", "black", ["bold", "underline"]⟩)]
            ++ post :=
  (format_style_extended ⟨"white", "black", ["bold"]⟩).2 sample_article_info (by decide)

end newsboat
